/-
  Verification of the Polymarket fills data pipeline.

  This file gives a shallow embedding, in Lean 4, of the core of the
  `polymarket-data` repository:
    * `src/dataProcessor.ts`  (price / amount / side derivation, fill processing),
    * `src/subgraphClient.ts` (paginated fetch loop, rate-limit retry, batch fetch),
    * `webapp/lib/excelGenerator.ts` (binary-market grouping, net-action labelling,
      summary statistics),
  and proves or refutes the frozen specification claims about it.

  Modelling conventions (documented once here, referenced in doc comments):
  * Numeric string fields of the feed (`makerAmountFilled`, `takerAmountFilled`,
    `timestamp`) are modelled by their parsed numeric values (ℚ for the 6-decimal
    fixed point amounts, ℤ for timestamps); string-to-number parsing is
    serialization, out of scope per the specification.
  * JavaScript number arithmetic is modelled over ℚ.  `Math.round` (round half
    towards +∞) is modelled exactly by `jsRound`.
  * `toFixed` / `parseFloat` display rounding in the summary sheet is spreadsheet
    serialization formatting, explicitly out of scope per the specification
    ("spreadsheet and CSV serialization formatting"); the summary row values are
    therefore modelled as the exact numbers the code computes before display.
  * `Array.prototype.sort` with a numeric comparator is stable (ECMAScript 2019);
    it is modelled by a stable insertion sort on the same key, which is
    extensionally equal to any stable sort by that key.
  * The timezone formatting of `timestamp_pst` (date-fns-tz) is serialization,
    out of scope; it is modelled by decimal rendering of the unix value.  No
    claim depends on the rendered text, only on which fill it is taken from.
  * The `processed` set of `detectAndGroupBinaryMarkets` is modelled by a list
    carried through the recursion, with `List.contains` as the membership test.
  * Network requests of the fetch loop are modelled by a script (list) of
    responses consumed one per request; real-time delays (the inter-page delay
    and the rate-limit cool-down) have no observable effect on the returned
    data and are not modelled.
-/
import Mathlib

namespace PolymarketData

/-! ### String utilities

`excelGenerator.ts` splits outcome labels with `split(' - ')`, joins with
`join(' - ')`, takes `split('|')[0]`, and tests substrings with `includes`.
These are modelled by structurally recursive functions on the character list
so that all of them compute by kernel reduction. -/

/-- JavaScript `s.split(' - ')` on the character list: splits at every
(non-overlapping, leftmost-first) occurrence of the three-character separator.
Never returns the empty list. -/
def splitDash : List Char → List (List Char)
  | ' ' :: '-' :: ' ' :: rest => [] :: splitDash rest
  | c :: rest =>
    match splitDash rest with
    | s :: ss => (c :: s) :: ss
    | [] => [[c]]
  | [] => [[]]

/-- JavaScript `s.split(' - ')`, as a list of strings. -/
def splitDashStr (s : String) : List String :=
  (splitDash s.toList).map (fun cs => String.mk cs)

/-- `parts.slice(0, -1).join(' - ')`: the base name of an outcome label
(everything before the final `" - "` separator; `""` if there is none). -/
def baseOf (o : String) : String :=
  String.intercalate " - " (splitDashStr o).dropLast

/-- `parts[parts.length - 1]`: the suffix of an outcome label (the part after
the final `" - "` separator; the whole label if there is none). -/
def suffixOf (o : String) : String :=
  (splitDashStr o).getLastD ""

/-- JavaScript `hay.includes(needle)`. -/
def containsSub (hay needle : String) : Bool :=
  hay.toList.tails.any (fun t => needle.toList.isPrefixOf t)

/-- JavaScript `s.toLowerCase()` (ASCII case folding suffices for the
rate-limit message test). -/
def toLowerStr (s : String) : String :=
  String.mk (s.toList.map Char.toLower)

/-- `key.split('|')[0]`: everything before the first `'|'`. -/
def outcomeOfKey (k : String) : String :=
  String.mk (k.toList.takeWhile (fun c => c ≠ '|'))

/-- Helper for `dedupFirst`: keeps elements not seen before, in order. -/
def dedupAux : List String → List String → List String
  | _, [] => []
  | seen, x :: xs =>
    if seen.contains x then dedupAux seen xs else x :: dedupAux (x :: seen) xs

/-- Insertion-order deduplication, keeping the first occurrence of each
element: the behaviour of a JavaScript `Set` (and of first-insertion object
keys) when converted back to an array. -/
def dedupFirst (l : List String) : List String :=
  dedupAux [] l

/-! ### Data model -/

/-- Trade side from the target token's perspective
(`'BUY' | 'SELL' | 'UNKNOWN'` in `dataProcessor.ts`). -/
inductive TradeSide where
  | BUY
  | SELL
  | UNKNOWN
deriving DecidableEq

/-- `OrderFillEvent` (named `RawFillEvent` in the specification): one raw
fill event from the subgraph feed.  Amount strings are modelled by their
parsed rational values and the timestamp string by its parsed integer value
(see the header).  The `id` field of the GraphQL payload is never consumed
by the engine and is omitted. -/
structure OrderFillEvent where
  transactionHash : String
  timestamp : Int
  orderHash : String
  maker : String
  taker : String
  makerAssetId : String
  takerAssetId : String
  makerAmountFilled : ℚ
  takerAmountFilled : ℚ
  fee : String
deriving DecidableEq

/-- `ProcessedFill`: the derived record produced by `processFills`.
`net_action` is the optional field attached later by the Excel generator for
binary groups (absent, i.e. `none`, when produced by `processFills`). -/
structure ProcessedFill where
  outcome : String
  token_id : String
  timestamp_unix : Int
  timestamp_pst : String
  price : ℚ
  amount : ℚ
  side : TradeSide
  transaction_hash : String
  order_hash : String
  maker : String
  taker : String
  fee : String
  net_action : Option String := none
deriving DecidableEq

/-- A market group produced by `detectAndGroupBinaryMarkets`. -/
structure MarketGroup where
  fills : List ProcessedFill
  isBinary : Bool
  baseName : String
deriving DecidableEq

/-- The grouping input of the Excel generator: an insertion-ordered map from
`"<outcome>|<token_id>"` keys to fill lists, modelled as an association list
in insertion order (JavaScript object keys of this shape enumerate in
insertion order). -/
def FillsByToken : Type := List (String × List ProcessedFill)

/-! ### PriceEngine — `src/dataProcessor.ts` -/

/-- JavaScript `Math.round`: round half towards +∞. -/
def jsRound (q : ℚ) : ℤ :=
  ⌊q + 1 / 2⌋

/-- `Math.round(x * 1_000_000) / 1_000_000` (round to 6 decimals). -/
def round6 (q : ℚ) : ℚ :=
  (jsRound (q * 1000000) : ℚ) / 1000000

/-- `Math.round(x * 100) / 100` (round to 2 decimals). -/
def round2 (q : ℚ) : ℚ :=
  (jsRound (q * 100) : ℚ) / 100

/-- `calculateFillPrice` (`dataProcessor.ts` lines 22-42).  Returns `none`
("null") when the fill matches neither quote configuration. -/
def calculateFillPrice (fill : OrderFillEvent) (tokenId : String) : Option ℚ :=
  let makerAsset := fill.makerAssetId
  let takerAsset := fill.takerAssetId
  let makerAmount := fill.makerAmountFilled
  let takerAmount := fill.takerAmountFilled
  if makerAsset == tokenId && takerAsset == "0" then
    if makerAmount == 0 then some 0
    else some ((takerAmount / 1000000) / (makerAmount / 1000000))
  else if takerAsset == tokenId && makerAsset == "0" then
    if takerAmount == 0 then some 0
    else some ((makerAmount / 1000000) / (takerAmount / 1000000))
  else
    none

/-- `calculateFillAmount` (`dataProcessor.ts` lines 47-59). -/
def calculateFillAmount (fill : OrderFillEvent) (tokenId : String) : ℚ :=
  if fill.makerAssetId == tokenId then fill.makerAmountFilled / 1000000
  else if fill.takerAssetId == tokenId then fill.takerAmountFilled / 1000000
  else 0

/-- `formatTimestamp` (`dataProcessor.ts` lines 64-71): timezone/date
formatting is serialization, out of scope per the specification; modelled by
decimal rendering of the unix value.  No claim depends on the rendered text. -/
def formatTimestamp (timestamp : Int) : String :=
  toString timestamp

/-- `getTradeSide` (`dataProcessor.ts` lines 76-84). -/
def getTradeSide (fill : OrderFillEvent) (tokenId : String) : TradeSide :=
  if fill.takerAssetId == tokenId then TradeSide.BUY
  else if fill.makerAssetId == tokenId then TradeSide.SELL
  else TradeSide.UNKNOWN

/-- `processFills` (`dataProcessor.ts` lines 89-126): one pass over the input,
skipping fills whose price is not derivable (`continue` on `price === null`),
otherwise emitting exactly one `ProcessedFill`, in input order. -/
def processFills (fills : List OrderFillEvent) (tokenId : String)
    (outcome : String) : List ProcessedFill :=
  fills.filterMap (fun fill =>
    match calculateFillPrice fill tokenId with
    | none => none
    | some price =>
      some { outcome := outcome
             token_id := tokenId
             timestamp_unix := fill.timestamp
             timestamp_pst := formatTimestamp fill.timestamp
             price := round6 price
             amount := round2 (calculateFillAmount fill tokenId)
             side := getTradeSide fill tokenId
             transaction_hash := fill.transactionHash
             order_hash := fill.orderHash
             maker := fill.maker
             taker := fill.taker
             fee := fill.fee })

/-- The two configurations in which `calculateFillPrice` derives a price:
maker leg is the target token against the quote sentinel, or taker leg is. -/
def hasQuoteConfig (fill : OrderFillEvent) (tokenId : String) : Bool :=
  (fill.makerAssetId == tokenId && fill.takerAssetId == "0") ||
  (fill.takerAssetId == tokenId && fill.makerAssetId == "0")

/-! ### FillIngestor — `src/subgraphClient.ts` -/

/-- The error value observed by the catch blocks: an optional HTTP status and
a message. -/
structure GqlError where
  status : Option Nat
  message : String
deriving DecidableEq

/-- `isRateLimitError` (`subgraphClient.ts` lines 137-142):
`error?.response?.status === 429 || error?.message?.toLowerCase().includes('rate limit')`. -/
def isRateLimitError (e : GqlError) : Bool :=
  e.status == some 429 || containsSub (toLowerStr e.message) "rate limit"

/-- The outcome of one page request of the fetch loop. -/
inductive FetchResult where
  | success (events : List OrderFillEvent)
  | failure (e : GqlError)

/-- The observable outcome of the single-token fetch loop on a finite script
of responses.  `pending` records that the script was exhausted while the loop
would have issued another request (with the recorded skip offset and
accumulator); it never arises in the claims, which always settle within the
script. -/
inductive FetchOutcome where
  | done (fills : List OrderFillEvent)
  | failed (e : GqlError)
  | pending (skip : Nat) (acc : List OrderFillEvent)
deriving DecidableEq

/-- The `while (true)` pagination loop of `getTokenFills`
(`subgraphClient.ts` lines 60-99), driven by a script of responses, one per
issued request.  An empty page terminates, a short page is appended and then
terminates, a full page is appended and the skip offset advances by the page
size; a rate-limit failure retries the same page (same skip, same
accumulator, next response); any other failure is thrown. -/
def getTokenFillsRun (pageSize : Nat) :
    List FetchResult → Nat → List OrderFillEvent → FetchOutcome
  | [], skip, acc => FetchOutcome.pending skip acc
  | FetchResult.failure e :: rs, skip, acc =>
    if isRateLimitError e then getTokenFillsRun pageSize rs skip acc
    else FetchOutcome.failed e
  | FetchResult.success fills :: rs, skip, acc =>
    if fills.length = 0 then FetchOutcome.done acc
    else if fills.length < pageSize then FetchOutcome.done (acc ++ fills)
    else getTokenFillsRun pageSize rs (skip + pageSize) (acc ++ fills)

/-- `getTokenFills`: the pagination loop started at skip 0 with an empty
accumulator. -/
def getTokenFills (pageSize : Nat) (responses : List FetchResult) : FetchOutcome :=
  getTokenFillsRun pageSize responses 0 []

/-- The per-token result substitution of `getMultipleTokenFills`: a
successful fetch contributes its fills, a failed fetch contributes `[]`. -/
def fetchedFills (r : Except GqlError (List OrderFillEvent)) : List OrderFillEvent :=
  match r with
  | Except.ok fills => fills
  | Except.error _ => []

/-- `getMultipleTokenFills` (`subgraphClient.ts` lines 108-132): the
per-token fetch (abstracted as `fetch`) is run for every requested token; a
token whose fetch throws is caught and mapped to `[]`, never aborting the
batch.  The results map keyed by token id is modelled as an association list
in request order; concurrency is unobservable here because each task writes
only its own key. -/
def getMultipleTokenFills (fetch : String → Except GqlError (List OrderFillEvent))
    (tokenIds : List String) : List (String × List OrderFillEvent) :=
  tokenIds.map (fun tokenId => (tokenId, fetchedFills (fetch tokenId)))

/-! ### BinaryPairMatcher and AggregationEngine — `webapp/lib/excelGenerator.ts` -/

/-- Stable descending insertion by an integer key: the new element is placed
before the first strictly smaller key, hence after all equal keys. -/
def insertDescBy {α : Type} (key : α → Int) (x : α) : List α → List α
  | [] => [x]
  | y :: ys => if key y < key x then x :: y :: ys else y :: insertDescBy key x ys

/-- Stable sort, descending by an integer key: the model of JavaScript
`Array.prototype.sort` with comparator `(a, b) => key(b) - key(a)` (stable
per ECMAScript 2019). -/
def sortDescBy {α : Type} (key : α → Int) (l : List α) : List α :=
  l.foldl (fun acc x => insertDescBy key x acc) []

/-- `fills.sort((a, b) => parseInt(b.timestamp_unix) - parseInt(a.timestamp_unix))`. -/
def sortFillsDesc (fills : List ProcessedFill) : List ProcessedFill :=
  sortDescBy (fun f => f.timestamp_unix) fills

/-- The distinct outcome labels of the grouping input, in first-appearance
order of the keys (`Object.keys(outcomeMap)` enumeration order). -/
def outcomesOf (fb : FillsByToken) : List String :=
  dedupFirst (fb.map (fun p => outcomeOfKey p.1))

/-- The concatenated fills of all keys carrying a given outcome label, in key
insertion order (`for (const key of outcomeMap[outcome1]) push(...)`). -/
def fillsOfOutcome (fb : FillsByToken) (o : String) : List ProcessedFill :=
  (fb.filter (fun p => outcomeOfKey p.1 == o)).foldr (fun p acc => p.2 ++ acc) []

/-- The `isBinaryPair` disjunction (`excelGenerator.ts` lines 356-362),
evaluated on the shared base and the two suffixes. -/
def isBinaryPair (base1 suffix1 suffix2 : String) : Bool :=
  (containsSub suffix1 "Over" && containsSub suffix2 "Under") ||
  (containsSub suffix1 "Under" && containsSub suffix2 "Over") ||
  (containsSub suffix1 "Yes" && containsSub suffix2 "No") ||
  (containsSub suffix1 "No" && containsSub suffix2 "Yes") ||
  (base1 != "" && suffix1 != "" && suffix2 != "")

/-- The full pairing test applied to a candidate partner in the inner scan:
same base, different suffix, and `isBinaryPair` (lines 355-364). -/
def pairCondition (o1 o2 : String) : Bool :=
  baseOf o1 == baseOf o2 && suffixOf o1 != suffixOf o2 &&
    isBinaryPair (baseOf o1) (suffixOf o1) (suffixOf o2)

/-- The double loop of `detectAndGroupBinaryMarkets` (lines 338-403): the
outer iteration walks the distinct labels in order, skipping processed ones;
for an unprocessed label the inner scan finds the first later unprocessed
label passing `pairCondition`; on a match one binary group is emitted and
both labels are marked processed, otherwise a non-binary singleton group is
emitted and the label is marked processed. -/
def detectLoop (fb : FillsByToken) : List String → List String → List MarketGroup
  | _, [] => []
  | processed, o1 :: rest =>
    if processed.contains o1 then detectLoop fb processed rest
    else
      match rest.find? (fun o2 => !processed.contains o2 && pairCondition o1 o2) with
      | some o2 =>
        { fills := sortFillsDesc (fillsOfOutcome fb o1 ++ fillsOfOutcome fb o2)
          isBinary := true
          baseName := baseOf o1 } :: detectLoop fb (o2 :: o1 :: processed) rest
      | none =>
        { fills := sortFillsDesc (fillsOfOutcome fb o1)
          isBinary := false
          baseName := o1 } :: detectLoop fb (o1 :: processed) rest

/-- `detectAndGroupBinaryMarkets` (`excelGenerator.ts` lines 321-406). -/
def detectAndGroupBinaryMarkets (fb : FillsByToken) : List MarketGroup :=
  detectLoop fb [] (outcomesOf fb)

/-- `fill.outcome.split(' - ').pop() || ''`: the suffix of a fill's own
outcome label (`pop` of the non-empty split result; `|| ''` only re-maps the
empty string to itself). -/
def fillSuffix (f : ProcessedFill) : String :=
  (splitDashStr f.outcome).getLastD ""

/-- The opposites map built in `createExcelWorkbook` (lines 38-43): the two
distinct fill suffixes mapped to each other when there are exactly two,
otherwise the empty map. -/
def oppositesOf (fills : List ProcessedFill) : List (String × String) :=
  match dedupFirst (fills.map fillSuffix) with
  | [a, b] => [(a, b), (b, a)]
  | _ => []

/-- `calculateNetAction` (`excelGenerator.ts` lines 408-422):
`side === 'BUY' ? outcomeOnly : (oppositesMap[outcomeOnly] || outcomeOnly)`;
the `||` falls back to the fill's own suffix both when the key is absent and
when the mapped value is the (falsy) empty string. -/
def calculateNetAction (side : TradeSide) (outcome : String) (baseName : String)
    (oppositesMap : List (String × String)) : String :=
  let parts := splitDashStr outcome
  let outcomeOnly := parts.getLastD ""
  match side with
  | TradeSide.BUY => outcomeOnly
  | _ =>
    match oppositesMap.lookup outcomeOnly with
    | some v => if v = "" then outcomeOnly else v
    | none => outcomeOnly

/-- The net-action attachment step of `createExcelWorkbook` (lines 36-49):
for a binary group every fill is re-emitted with `net_action` set; non-binary
groups keep their fills untouched. -/
def attachNetActions (g : MarketGroup) : List ProcessedFill :=
  if g.isBinary then
    let oppositesMap := oppositesOf g.fills
    g.fills.map (fun fill =>
      { fill with
        net_action := some (calculateNetAction fill.side fill.outcome g.baseName oppositesMap) })
  else g.fills

/-- `volumes.reduce((a, b) => a + b, 0)`. -/
def sumQ (l : List ℚ) : ℚ :=
  l.foldl (fun a b => a + b) 0

/-- `Math.min(...prices)` over a non-empty list (the empty case, `Infinity`
in JavaScript, is modelled by 0 and is unreachable through the claims). -/
def minQ : List ℚ → ℚ
  | [] => 0
  | p :: ps => ps.foldl min p

/-- `Math.max(...prices)` over a non-empty list (empty case as in `minQ`). -/
def maxQ : List ℚ → ℚ
  | [] => 0
  | p :: ps => ps.foldl max p

/-- `fills[0].price` (the empty case, a crash in the source, is modelled by 0
and is unreachable through the claims, which hypothesise non-empty fills). -/
def headPriceOf : List ProcessedFill → ℚ
  | [] => 0
  | f :: _ => f.price

/-- `fills[0].timestamp_pst` (empty case as in `headPriceOf`). -/
def headPstOf : List ProcessedFill → String
  | [] => ""
  | f :: _ => f.timestamp_pst

/-- `fills[fills.length - 1].timestamp_pst` (empty case as in `headPriceOf`). -/
def lastPstOf : List ProcessedFill → String
  | [] => ""
  | [f] => f.timestamp_pst
  | _ :: f :: fs => lastPstOf (f :: fs)

/-- The display name of a group in the summary sheet (lines 216-229): the
base name for binary groups, the (re-joined) outcome of the first fill
otherwise. -/
def displayNameOf (g : MarketGroup) : String :=
  if g.isBinary then g.baseName
  else
    match g.fills with
    | [] => ""
    | f :: _ =>
      let parts := splitDashStr f.outcome
      let market := String.intercalate " - " parts.dropLast
      let outcomeOnly := parts.getLastD ""
      if parts.length > 1 then market ++ " - " ++ outcomeOnly else f.outcome

/-- One summary row (`createSummarySheet`, `excelGenerator.ts` lines 202-242).
Cell display rounding (`toFixed` / `parseFloat`) is serialization formatting,
out of scope per the specification; the exact computed values are recorded. -/
structure SummaryRow where
  market : String
  total_fills : ℚ
  total_volume : ℚ
  avg_volume : ℚ
  min_price : ℚ
  max_price : ℚ
  avg_price : ℚ
  current_price : ℚ
  earliest_fill : String
  latest_fill : String
deriving DecidableEq

/-- The row computed for one group: fill count and total volume divided by 2
(duplicate-event correction), average volume as their quotient, prices taken
directly across all fills, current price and time range from the
timestamp-descending fill list. -/
def summaryRow (g : MarketGroup) : SummaryRow :=
  let fills := g.fills
  let volumes := fills.map (fun f => f.amount)
  let prices := fills.map (fun f => f.price)
  let totalVolume := sumQ volumes / 2
  let actualFillCount := (fills.length : ℚ) / 2
  let avgVolume := totalVolume / actualFillCount
  { market := displayNameOf g
    total_fills := actualFillCount
    total_volume := totalVolume
    avg_volume := avgVolume
    min_price := minQ prices
    max_price := maxQ prices
    avg_price := sumQ prices / ((prices.length : ℚ))
    current_price := headPriceOf fills
    earliest_fill := lastPstOf fills
    latest_fill := headPstOf fills }

/-- `groups.sort((a, b) => b.fills.length - a.fills.length)`. -/
def sortGroupsDesc (groups : List MarketGroup) : List MarketGroup :=
  sortDescBy (fun g => (g.fills.length : Int)) groups

/-- The data rows of the summary sheet (`createSummarySheet`): the detected
groups sorted by descending raw fill count, one row per group.  The trailing
notes block of the sheet is static text, serialization, out of scope. -/
def createSummaryRows (fb : FillsByToken) : List SummaryRow :=
  (sortGroupsDesc (detectAndGroupBinaryMarkets fb)).map summaryRow

/-- The pairing condition exactly as the specification claim words it
(modelled from the spec, for comparison with `pairCondition`): shared
non-empty base name, distinct non-empty suffixes. -/
def claimPairCondition (o1 o2 : String) : Bool :=
  baseOf o1 == baseOf o2 && baseOf o1 != "" && suffixOf o1 != suffixOf o2 &&
    suffixOf o1 != "" && suffixOf o2 != ""

/-! ### Test fixtures -/

/-- A fill selling token "T" for the quote currency: 1 token unit out,
0.65 quote units in. -/
def fill1 : OrderFillEvent :=
  { transactionHash := "tx1", timestamp := 100, orderHash := "oh1", maker := "m1"
    taker := "k1", makerAssetId := "T", takerAssetId := "0"
    makerAmountFilled := 1000000, takerAmountFilled := 650000, fee := "0" }

/-- A fill buying token "T" with the quote currency: 0.35 quote units out,
1 token unit in. -/
def fill2 : OrderFillEvent :=
  { transactionHash := "tx2", timestamp := 200, orderHash := "oh2", maker := "m2"
    taker := "k2", makerAssetId := "0", takerAssetId := "T"
    makerAmountFilled := 350000, takerAmountFilled := 1000000, fee := "0" }

/-- A degenerate fill whose asset identifiers are both the quote sentinel. -/
def fill0 : OrderFillEvent :=
  { transactionHash := "tx0", timestamp := 1, orderHash := "oh0", maker := "m0"
    taker := "k0", makerAssetId := "0", takerAssetId := "0"
    makerAmountFilled := 1000000, takerAmountFilled := 2000000, fee := "0" }

/-- A fill between a foreign token "X" and the quote currency: it does not
involve the target token "T" at all, yet one of its assets is the quote
sentinel. -/
def fillX : OrderFillEvent :=
  { transactionHash := "txX", timestamp := 3, orderHash := "ohX", maker := "mX"
    taker := "kX", makerAssetId := "X", takerAssetId := "0"
    makerAmountFilled := 1000000, takerAmountFilled := 500000, fee := "0" }

/-- A rate-limited request error (HTTP 429). -/
def e429 : GqlError :=
  { status := some 429, message := "too many requests" }

/-- A non-rate-limit request error. -/
def eBoom : GqlError :=
  { status := none, message := "connection reset" }

/-! ### Helper lemmas -/

theorem length_filter_add_length_filter_not {α : Type} (l : List α) (p : α → Bool) :
    (l.filter p).length + (l.filter (fun x => !p x)).length = l.length := by
  induction l with
  | nil => rfl
  | cons x xs ih =>
    by_cases h : p x = true <;> simp [List.filter_cons, h] <;> omega

/-- `calculateFillPrice` succeeds exactly on the two quote configurations. -/
theorem calculateFillPrice_isSome (fill : OrderFillEvent) (tokenId : String) :
    (calculateFillPrice fill tokenId).isSome = hasQuoteConfig fill tokenId := by
  unfold calculateFillPrice hasQuoteConfig
  cases h1 : (fill.makerAssetId == tokenId && fill.takerAssetId == "0") with
  | true => cases h3 : (fill.makerAmountFilled == 0) <;> simp [h1, h3]
  | false =>
    cases h2 : (fill.takerAssetId == tokenId && fill.makerAssetId == "0") with
    | true => cases h3 : (fill.takerAmountFilled == 0) <;> simp [h1, h2, h3]
    | false => simp [h1, h2]

/-! ### Claim C1 -/

/-- C1, amended (the claim as stated fails when the target token id is
itself the quote sentinel "0"; see `c1_claim_counterexample`): provided the
target token id differs from the quote sentinel "0", a fill with
`makerAssetId = tokenId` and `takerAssetId = "0"` derives side SELL and
price `(takerAmountFilled/1e6)/(makerAmountFilled/1e6)` when the maker
amount is positive (0 when it is zero); symmetrically, a fill with
`takerAssetId = tokenId` and `makerAssetId = "0"` derives side BUY and
price `(makerAmountFilled/1e6)/(takerAmountFilled/1e6)` when the taker
amount is positive (0 when it is zero). -/
theorem derivePrice_deriveSide_quote_configs
    (fill : OrderFillEvent) (tokenId : String) (hq : tokenId ≠ "0") :
    ((fill.makerAssetId = tokenId ∧ fill.takerAssetId = "0") →
      getTradeSide fill tokenId = TradeSide.SELL
      ∧ (fill.makerAmountFilled = 0 → calculateFillPrice fill tokenId = some 0)
      ∧ (0 < fill.makerAmountFilled → calculateFillPrice fill tokenId =
          some ((fill.takerAmountFilled / 1000000) / (fill.makerAmountFilled / 1000000))))
    ∧ ((fill.takerAssetId = tokenId ∧ fill.makerAssetId = "0") →
      getTradeSide fill tokenId = TradeSide.BUY
      ∧ (fill.takerAmountFilled = 0 → calculateFillPrice fill tokenId = some 0)
      ∧ (0 < fill.takerAmountFilled → calculateFillPrice fill tokenId =
          some ((fill.makerAmountFilled / 1000000) / (fill.takerAmountFilled / 1000000)))) := by
  constructor
  · rintro ⟨hm, ht⟩
    have hts : (fill.takerAssetId == tokenId) = false := by
      rw [ht]; exact beq_eq_false_iff_ne.mpr (Ne.symm hq)
    refine ⟨?_, ?_, ?_⟩
    · simp [getTradeSide, hts, hm]
    · intro h0; simp [calculateFillPrice, hm, ht, h0]
    · intro hpos
      have h0 : (fill.makerAmountFilled == 0) = false :=
        beq_eq_false_iff_ne.mpr (ne_of_gt hpos)
      simp [calculateFillPrice, hm, ht, h0]
  · rintro ⟨ht, hm⟩
    have hms : (fill.makerAssetId == tokenId) = false := by
      rw [hm]; exact beq_eq_false_iff_ne.mpr (Ne.symm hq)
    have hc1 : (fill.makerAssetId == tokenId && fill.takerAssetId == "0") = false := by
      rw [hms, Bool.false_and]
    have hc2 : (fill.takerAssetId == tokenId && fill.makerAssetId == "0") = true := by
      rw [ht, hm]; simp
    refine ⟨?_, ?_, ?_⟩
    · simp [getTradeSide, ht]
    · intro h0; simp [calculateFillPrice, hc1, hc2, h0]
    · intro hpos
      have h0 : (fill.takerAmountFilled == 0) = false :=
        beq_eq_false_iff_ne.mpr (ne_of_gt hpos)
      simp [calculateFillPrice, hc1, hc2, h0]

/-- Counterexample to C1 as stated: with target token id "0" (the quote
sentinel) and a fill whose two asset identifiers are both "0", the maker
configuration of the claim holds (`makerAssetId = tokenId`,
`takerAssetId = "0"`, positive maker amount), yet the derived side is BUY,
not the claimed SELL. -/
theorem derivePrice_deriveSide_quote_configs_counterexample :
    fill0.makerAssetId = "0" ∧ fill0.takerAssetId = "0"
    ∧ 0 < fill0.makerAmountFilled
    ∧ getTradeSide fill0 "0" = TradeSide.BUY
    ∧ TradeSide.BUY ≠ TradeSide.SELL :=
  ⟨rfl, rfl, by decide, by decide, by decide⟩

/-- Witness for C1's amended theorem at the two concrete fills `fill1`
(maker leg sells "T") and `fill2` (taker leg buys "T"). -/
theorem derivePrice_deriveSide_quote_configs_witness :
    (getTradeSide fill1 "T" = TradeSide.SELL
     ∧ calculateFillPrice fill1 "T" =
        some ((fill1.takerAmountFilled / 1000000) / (fill1.makerAmountFilled / 1000000)))
    ∧ (getTradeSide fill2 "T" = TradeSide.BUY
     ∧ calculateFillPrice fill2 "T" =
        some ((fill2.makerAmountFilled / 1000000) / (fill2.takerAmountFilled / 1000000))) :=
  ⟨⟨((derivePrice_deriveSide_quote_configs fill1 "T" (by decide)).1 ⟨rfl, rfl⟩).1,
    ((derivePrice_deriveSide_quote_configs fill1 "T" (by decide)).1 ⟨rfl, rfl⟩).2.2 (by decide)⟩,
   ⟨((derivePrice_deriveSide_quote_configs fill2 "T" (by decide)).2 ⟨rfl, rfl⟩).1,
    ((derivePrice_deriveSide_quote_configs fill2 "T" (by decide)).2 ⟨rfl, rfl⟩).2.2 (by decide)⟩⟩

/-! ### Claim C2 -/

/-- C2, amended (the claim as stated fails because the code drops every fill
whose price is not derivable, not only token-for-token trades; see
`processFills_count_counterexample`): `processFills` emits exactly one
`ProcessedFill` per input event except for the fills matching neither quote
configuration (`hasQuoteConfig` false — this includes every token-for-token
trade and also every fill not involving the target token), which are
dropped; hence the output count equals the count of fills matching a quote
configuration, equals the input count minus the number of dropped fills, and
never exceeds the input count. -/
theorem processFills_count (fills : List OrderFillEvent) (tokenId outcome : String) :
    (processFills fills tokenId outcome).length
      = (fills.filter (fun f => hasQuoteConfig f tokenId)).length
    ∧ (processFills fills tokenId outcome).length
      = fills.length - (fills.filter (fun f => !hasQuoteConfig f tokenId)).length
    ∧ (processFills fills tokenId outcome).length ≤ fills.length := by
  have h1 : (processFills fills tokenId outcome).length
      = (fills.filter (fun f => hasQuoteConfig f tokenId)).length := by
    induction fills with
    | nil => rfl
    | cons f fs ih =>
      have hs := calculateFillPrice_isSome f tokenId
      cases hp : calculateFillPrice f tokenId with
      | none =>
        have hq : hasQuoteConfig f tokenId = false := by rw [← hs, hp]; rfl
        simpa [processFills, List.filterMap_cons, hp, List.filter_cons, hq] using ih
      | some p =>
        have hq : hasQuoteConfig f tokenId = true := by rw [← hs, hp]; rfl
        simpa [processFills, List.filterMap_cons, hp, List.filter_cons, hq] using ih
  refine ⟨h1, ?_, ?_⟩
  · have h2 := length_filter_add_length_filter_not fills (fun f => hasQuoteConfig f tokenId)
    omega
  · rw [h1]; exact List.length_filter_le _ _

/-- Counterexample to C2 as stated: the fill `fillX` trades a foreign token
"X" against the quote currency, so one of its assets *is* the quote sentinel
(it is not a token-for-token trade), yet `processFills` for target token "T"
drops it: the output count (0) is not the input count (1) minus the number
of fills in which neither asset equals the quote sentinel (0). -/
theorem processFills_count_counterexample :
    (processFills [fillX] "T" "outcome").length
      ≠ [fillX].length
        - (([fillX].filter (fun f => f.makerAssetId != "0" && f.takerAssetId != "0")).length) := by
  decide

/-! ### Claim C10 -/

/-- C10 (confirmed): every `ProcessedFill` emitted by `processFills` has
side BUY or SELL; the UNKNOWN side never occurs in its output, because a
fill is kept only when its price is derivable, which forces one of the two
quote configurations, and each of them determines a BUY or SELL side. -/
theorem processFills_side_not_unknown (fills : List OrderFillEvent)
    (tokenId outcome : String) (pf : ProcessedFill)
    (hpf : pf ∈ processFills fills tokenId outcome) :
    pf.side = TradeSide.BUY ∨ pf.side = TradeSide.SELL := by
  obtain ⟨fill, hmem, hf⟩ := List.mem_filterMap.mp hpf
  cases hp : calculateFillPrice fill tokenId with
  | none => rw [hp] at hf; cases hf
  | some p =>
    rw [hp] at hf
    obtain rfl := (Option.some.injEq _ _).mp hf
    show getTradeSide fill tokenId = TradeSide.BUY ∨ getTradeSide fill tokenId = TradeSide.SELL
    by_cases h1 : (fill.takerAssetId == tokenId) = true
    · left; simp [getTradeSide, h1]
    · right
      by_cases hc1 : (fill.makerAssetId == tokenId && fill.takerAssetId == "0") = true
      · have hm : (fill.makerAssetId == tokenId) = true := by
          cases hma : (fill.makerAssetId == tokenId) with
          | true => rfl
          | false => rw [hma, Bool.false_and] at hc1; cases hc1
        simp [getTradeSide, h1, hm]
      · by_cases hc2 : (fill.takerAssetId == tokenId && fill.makerAssetId == "0") = true
        · have htk : (fill.takerAssetId == tokenId) = true := by
            cases hta : (fill.takerAssetId == tokenId) with
            | true => rfl
            | false => rw [hta, Bool.false_and] at hc2; cases hc2
          exact absurd htk h1
        · unfold calculateFillPrice at hp
          simp [hc1, hc2] at hp

/-- Witness for C10 at a concrete input list: every fill of
`processFills [fill1] "T" "o"` has side BUY or SELL. -/
theorem processFills_side_not_unknown_witness :
    (processFills [fill1] "T" "o").all
      (fun f => f.side == TradeSide.BUY || f.side == TradeSide.SELL) = true := by
  rw [List.all_eq_true]
  intro f hf
  rcases processFills_side_not_unknown [fill1] "T" "o" f hf with h | h <;> simp [h]

/-! ### Claim C7 -/

/-- C7 (confirmed): in the single-token fetch loop, a page request failing
with a rate-limit signal is retried with the same skip offset and the same
accumulator (the same page, re-requested); any finite number of consecutive
rate-limit failures leaves the loop state unchanged (the retry is unbounded:
no counter limits it); a page request failing with any other error makes the
loop fail with exactly that error.  The fixed cool-down before the retry is
real time, unobservable in the returned data, and not modelled. -/
theorem getTokenFillsRun_rate_limit_policy :
    (∀ (ps : Nat) (e : GqlError) (rs : List FetchResult) (skip : Nat)
        (acc : List OrderFillEvent), isRateLimitError e = true →
      getTokenFillsRun ps (FetchResult.failure e :: rs) skip acc
        = getTokenFillsRun ps rs skip acc)
    ∧ (∀ (ps : Nat) (e : GqlError) (n : Nat) (rs : List FetchResult) (skip : Nat)
        (acc : List OrderFillEvent), isRateLimitError e = true →
      getTokenFillsRun ps (List.replicate n (FetchResult.failure e) ++ rs) skip acc
        = getTokenFillsRun ps rs skip acc)
    ∧ (∀ (ps : Nat) (e : GqlError) (rs : List FetchResult) (skip : Nat)
        (acc : List OrderFillEvent), isRateLimitError e = false →
      getTokenFillsRun ps (FetchResult.failure e :: rs) skip acc
        = FetchOutcome.failed e)
    ∧ (∀ (ps : Nat) (e : GqlError) (rs : List FetchResult), isRateLimitError e = true →
      getTokenFills ps (FetchResult.failure e :: rs) = getTokenFills ps rs) := by
  have ha : ∀ (ps : Nat) (e : GqlError) (rs : List FetchResult) (skip : Nat)
      (acc : List OrderFillEvent), isRateLimitError e = true →
      getTokenFillsRun ps (FetchResult.failure e :: rs) skip acc
        = getTokenFillsRun ps rs skip acc := by
    intro ps e rs skip acc h
    simp [getTokenFillsRun, h]
  refine ⟨ha, ?_, ?_, ?_⟩
  · intro ps e n rs skip acc h
    induction n with
    | zero => rfl
    | succ k ih =>
      rw [List.replicate_succ, List.cons_append, ha ps e _ skip acc h, ih]
  · intro ps e rs skip acc h
    simp [getTokenFillsRun, h]
  · intro ps e rs h
    exact ha ps e rs 0 [] h

/-- Witness for C7 at concrete errors: `e429` is classified as a rate limit
and retried in place; `eBoom` is not and fails the loop. -/
theorem getTokenFillsRun_rate_limit_policy_witness :
    isRateLimitError e429 = true
    ∧ getTokenFillsRun 100 [FetchResult.failure e429] 0 []
        = getTokenFillsRun 100 [] 0 []
    ∧ isRateLimitError eBoom = false
    ∧ getTokenFillsRun 100 [FetchResult.failure eBoom] 7 []
        = FetchOutcome.failed eBoom :=
  ⟨by decide,
   getTokenFillsRun_rate_limit_policy.1 100 e429 [] 0 [] (by decide),
   by decide,
   getTokenFillsRun_rate_limit_policy.2.2.1 100 eBoom [] 7 [] (by decide)⟩

/-! ### Claim C8 -/

/-- C8 (confirmed): the multi-token fetch returns a mapping with an entry
for every requested token id — a token whose fetch succeeds maps to its
fetched event sequence, and a token whose fetch fails with any error maps to
the empty sequence; per-token failures never abort the batch (the result is
total, with the requested ids as its keys in request order). -/
theorem getMultipleTokenFills_isolates_failures
    (fetch : String → Except GqlError (List OrderFillEvent))
    (tokenIds : List String) :
    ((getMultipleTokenFills fetch tokenIds).map Prod.fst = tokenIds)
    ∧ (∀ t, t ∈ tokenIds → ∀ fills, fetch t = Except.ok fills →
        (getMultipleTokenFills fetch tokenIds).lookup t = some fills)
    ∧ (∀ t, t ∈ tokenIds → ∀ e, fetch t = Except.error e →
        (getMultipleTokenFills fetch tokenIds).lookup t = some []) := by
  have hfst : ∀ l : List String, (getMultipleTokenFills fetch l).map Prod.fst = l := by
    intro l
    induction l with
    | nil => rfl
    | cons x xs ih => simpa [getMultipleTokenFills] using ih
  have key : ∀ t, t ∈ tokenIds →
      (getMultipleTokenFills fetch tokenIds).lookup t = some (fetchedFills (fetch t)) := by
    intro t ht
    clear hfst
    induction tokenIds with
    | nil => cases ht
    | cons x xs ih =>
      cases hxt : (t == x) with
      | true =>
        have hx : t = x := beq_iff_eq.mp hxt
        subst hx
        simp [getMultipleTokenFills, List.lookup]
      | false =>
        have ht' : t ∈ xs := by
          rcases List.mem_cons.mp ht with h | h
          · subst h; simp at hxt
          · exact h
        simpa [getMultipleTokenFills, List.lookup, hxt] using ih ht'
  refine ⟨hfst tokenIds, ?_, ?_⟩
  · intro t ht fills hf
    have h := key t ht
    rw [hf] at h
    exact h
  · intro t ht e hf
    have h := key t ht
    rw [hf] at h
    exact h

/-- A batch fetch behaviour with one succeeding and one failing token. -/
def fetchW : String → Except GqlError (List OrderFillEvent) :=
  fun tokenId => if tokenId == "a" then Except.ok [fill1] else Except.error eBoom

/-- Witness for C8 at the concrete batch `["a", "b"]` under `fetchW`: the
succeeding token "a" maps to its fills, the failing token "b" maps to `[]`. -/
theorem getMultipleTokenFills_isolates_failures_witness :
    ((getMultipleTokenFills fetchW ["a", "b"]).lookup "a" = some [fill1])
    ∧ ((getMultipleTokenFills fetchW ["a", "b"]).lookup "b" = some []) :=
  ⟨(getMultipleTokenFills_isolates_failures fetchW ["a", "b"]).2.1 "a" (by decide) [fill1] rfl,
   (getMultipleTokenFills_isolates_failures fetchW ["a", "b"]).2.2 "b" (by decide) eBoom rfl⟩

/-! ### Fixtures and lemmas for the aggregation claims -/

/-- A processed fill with the given timestamp, outcome, side, price and
amount (identifier fields fixed; they never influence the aggregation). -/
def mkFill (ts : Int) (outcome : String) (side : TradeSide) (price amount : ℚ) :
    ProcessedFill :=
  { outcome := outcome, token_id := "tok", timestamp_unix := ts
    timestamp_pst := formatTimestamp ts, price := price, amount := amount
    side := side, transaction_hash := "tx", order_hash := "oh"
    maker := "m", taker := "k", fee := "0" }

/-- The group of the C5 duplication-correction scenario: 4 fills, each of
price 0.5 and amount 10. -/
def g5 : MarketGroup :=
  { fills := [mkFill 4 "G - A" TradeSide.BUY (1 / 2) 10
    , mkFill 3 "G - A" TradeSide.SELL (1 / 2) 10
    , mkFill 2 "G - B" TradeSide.BUY (1 / 2) 10
    , mkFill 1 "G - B" TradeSide.SELL (1 / 2) 10]
    isBinary := true, baseName := "G" }

def f9a : ProcessedFill := mkFill 2 "M - A" TradeSide.BUY 1 10

def f9b : ProcessedFill := mkFill 1 "M - A" TradeSide.SELL 1 20

/-- A two-fill group with amounts 10 and 20 (raw volume 30). -/
def gC6 : MarketGroup :=
  { fills := [f9a, f9b], isBinary := false, baseName := "M - A" }

theorem mem_insertDescBy {α : Type} (key : α → Int) (x y : α) (l : List α) :
    y ∈ insertDescBy key x l ↔ y = x ∨ y ∈ l := by
  induction l with
  | nil => simp [insertDescBy]
  | cons z zs ih =>
    by_cases h : key z < key x
    · simp only [insertDescBy, if_pos h, List.mem_cons]
    · simp only [insertDescBy, if_neg h, List.mem_cons, ih]
      tauto

theorem pairwise_insertDescBy {α : Type} (key : α → Int) (x : α) (l : List α)
    (hl : l.Pairwise (fun a b => key b ≤ key a)) :
    (insertDescBy key x l).Pairwise (fun a b => key b ≤ key a) := by
  induction l with
  | nil => simp [insertDescBy]
  | cons z zs ih =>
    rcases List.pairwise_cons.mp hl with ⟨hz, hzs⟩
    by_cases h : key z < key x
    · rw [insertDescBy, if_pos h]
      refine List.pairwise_cons.mpr ⟨?_, hl⟩
      intro b hb
      rcases List.mem_cons.mp hb with rfl | hb
      · exact le_of_lt h
      · exact le_trans (hz b hb) (le_of_lt h)
    · rw [insertDescBy, if_neg h]
      refine List.pairwise_cons.mpr ⟨?_, ih hzs⟩
      intro b hb
      rcases (mem_insertDescBy key x b zs).mp hb with rfl | hb
      · exact le_of_not_lt h
      · exact hz b hb

theorem pairwise_sortDescBy {α : Type} (key : α → Int) (l : List α) :
    (sortDescBy key l).Pairwise (fun a b => key b ≤ key a) := by
  have gen : ∀ (l acc : List α), acc.Pairwise (fun a b => key b ≤ key a) →
      (l.foldl (fun acc x => insertDescBy key x acc) acc).Pairwise
        (fun a b => key b ≤ key a) := by
    intro l
    induction l with
    | nil => intro acc h; exact h
    | cons x xs ih => intro acc h; exact ih _ (pairwise_insertDescBy key x acc h)
  exact gen l [] List.Pairwise.nil

theorem length_insertDescBy {α : Type} (key : α → Int) (x : α) (l : List α) :
    (insertDescBy key x l).length = l.length + 1 := by
  induction l with
  | nil => rfl
  | cons z zs ih => by_cases h : key z < key x <;> simp [insertDescBy, h, ih]

theorem length_sortDescBy {α : Type} (key : α → Int) (l : List α) :
    (sortDescBy key l).length = l.length := by
  have gen : ∀ (l acc : List α),
      (l.foldl (fun acc x => insertDescBy key x acc) acc).length
        = acc.length + l.length := by
    intro l
    induction l with
    | nil => intro acc; simp
    | cons x xs ih =>
      intro acc
      rw [List.foldl_cons, ih, length_insertDescBy, List.length_cons]
      omega
  simpa using gen l []

theorem lastPstOf_cons (f : ProcessedFill) (fs : List ProcessedFill) :
    lastPstOf (f :: fs) = ((f :: fs).getLastD f).timestamp_pst := by
  induction fs generalizing f with
  | nil => rfl
  | cons g gs ih =>
    calc lastPstOf (f :: g :: gs) = lastPstOf (g :: gs) := rfl
    _ = ((g :: gs).getLastD g).timestamp_pst := ih g
    _ = ((f :: g :: gs).getLastD f).timestamp_pst := by
        rw [List.getLastD_cons, List.getLastD_cons, List.getLastD_cons]

/-! ### Claim C5 -/

/-- C5 (confirmed): every summary row reports `total_fills` equal to the raw
fill count divided by 2 and `total_volume` equal to the sum of the fills'
amounts divided by 2; in particular the group `g5` (4 fills, each of price
0.5 and amount 10) yields `total_fills = 2` and `total_volume = 20`. -/
theorem summaryRow_duplication_correction :
    (∀ g : MarketGroup,
      (summaryRow g).total_fills = (g.fills.length : ℚ) / 2
      ∧ (summaryRow g).total_volume = sumQ (g.fills.map (fun f => f.amount)) / 2)
    ∧ (summaryRow g5).total_fills = 2
    ∧ (summaryRow g5).total_volume = 20 := by
  refine ⟨fun g => ⟨rfl, rfl⟩, ?_, ?_⟩
  · show ((g5.fills.length : ℚ)) / 2 = 2
    norm_num [g5]
  · show sumQ (g5.fills.map (fun f => f.amount)) / 2 = 20
    norm_num [g5, mkFill, sumQ]

/-! ### Claim C6 -/

/-- C6, amended (the claim as stated is false: the /2 corrections to total
volume and fill count cancel in their quotient; see
`summaryRow_avg_volume_counterexample`): for every group with a non-empty
fill list, the reported average volume equals the *raw* average volume — the
sum of the fills' amounts divided by the raw number of fills — with no net
/2 correction. -/
theorem summaryRow_avg_volume_is_raw_average (g : MarketGroup) (h : g.fills ≠ []) :
    (summaryRow g).avg_volume
      = sumQ (g.fills.map (fun f => f.amount)) / (g.fills.length : ℚ) := by
  show (sumQ (g.fills.map (fun f => f.amount)) / 2) / ((g.fills.length : ℚ) / 2)
      = sumQ (g.fills.map (fun f => f.amount)) / (g.fills.length : ℚ)
  rw [div_div_div_comm]
  norm_num

/-- Counterexample to C6 as stated: for the group `gC6` (2 fills, amounts 10
and 20) the summary reports average volume 15, while the raw average volume
divided by 2 is 7.5; the two differ. -/
theorem summaryRow_avg_volume_counterexample :
    (summaryRow gC6).avg_volume = 15
    ∧ (sumQ (gC6.fills.map (fun f => f.amount)) / (gC6.fills.length : ℚ)) / 2 = 15 / 2
    ∧ ((15 : ℚ) ≠ 15 / 2) := by
  refine ⟨?_, ?_, by norm_num⟩
  · show (sumQ (gC6.fills.map (fun f => f.amount)) / 2) / ((gC6.fills.length : ℚ) / 2) = 15
    norm_num [gC6, f9a, f9b, mkFill, sumQ]
  · norm_num [gC6, f9a, f9b, mkFill, sumQ]

/-- Witness for C6's amended theorem at the concrete group `gC6`. -/
theorem summaryRow_avg_volume_is_raw_average_witness :
    gC6.fills ≠ []
    ∧ (summaryRow gC6).avg_volume
        = sumQ (gC6.fills.map (fun f => f.amount)) / (gC6.fills.length : ℚ) :=
  ⟨by decide, summaryRow_avg_volume_is_raw_average gC6 (by decide)⟩

/-! ### Claim C9 -/

/-- C9 (confirmed): the summary has exactly one row per detected
MarketGroup; the rows are sorted by descending fill count (`total_fills` is
the raw count divided by 2, so its descending order is the descending raw
count order); and for every group with a non-empty (timestamp-descending)
fill list, `current_price` is the price of the fill at index 0, the latest
fill timestamp is taken from the first element and the earliest fill
timestamp from the last element of that list. -/
theorem createSummaryRows_shape (fb : FillsByToken) :
    (createSummaryRows fb).length = (detectAndGroupBinaryMarkets fb).length
    ∧ (createSummaryRows fb).Pairwise (fun r1 r2 => r2.total_fills ≤ r1.total_fills)
    ∧ (∀ (g : MarketGroup) (f : ProcessedFill) (fs : List ProcessedFill),
        g.fills = f :: fs →
        (summaryRow g).current_price = f.price
        ∧ (summaryRow g).latest_fill = f.timestamp_pst
        ∧ (summaryRow g).earliest_fill = ((f :: fs).getLastD f).timestamp_pst) := by
  refine ⟨?_, ?_, ?_⟩
  · unfold createSummaryRows sortGroupsDesc
    rw [List.length_map, length_sortDescBy]
  · unfold createSummaryRows
    rw [List.pairwise_map]
    have hp := pairwise_sortDescBy (fun g : MarketGroup => (g.fills.length : Int))
      (detectAndGroupBinaryMarkets fb)
    unfold sortGroupsDesc
    refine hp.imp ?_
    intro a b hab
    show ((b.fills.length : ℚ)) / 2 ≤ ((a.fills.length : ℚ)) / 2
    have hc : (b.fills.length : ℚ) ≤ (a.fills.length : ℚ) := by exact_mod_cast hab
    exact div_le_div_of_nonneg_right hc (by norm_num)
  · intro g f fs hg
    refine ⟨?_, ?_, ?_⟩
    · show headPriceOf g.fills = f.price
      rw [hg]
      rfl
    · show headPstOf g.fills = f.timestamp_pst
      rw [hg]
      rfl
    · show lastPstOf g.fills = ((f :: fs).getLastD f).timestamp_pst
      rw [hg]
      exact lastPstOf_cons f fs

/-- Witness for C9 at the concrete group `gC6` (fills sorted descending by
timestamp, head `f9a`, last `f9b`). -/
theorem createSummaryRows_shape_witness :
    (summaryRow gC6).current_price = f9a.price
    ∧ (summaryRow gC6).latest_fill = f9a.timestamp_pst
    ∧ (summaryRow gC6).earliest_fill = (([f9a, f9b]).getLastD f9a).timestamp_pst :=
  (createSummaryRows_shape []).2.2 gC6 f9a [f9b] rfl

/-! ### Lemmas for the grouping claims -/

theorem containsSub_empty_hay (needle : String) (h : needle ≠ "") :
    containsSub "" needle = false := by
  obtain ⟨data⟩ := needle
  cases data with
  | nil => exact absurd rfl h
  | cons c cs => rfl

theorem ne_empty_of_containsSub {s needle : String} (hn : needle ≠ "")
    (h : containsSub s needle = true) : s ≠ "" := by
  intro he
  subst he
  rw [containsSub_empty_hay needle hn] at h
  cases h

/-- On labels whose base name is non-empty, the source's pairing test agrees
with the claim's wording of it: the Over/Under and Yes/No clauses only ever
fire on non-empty suffixes, and the catch-all clause is the claim's
condition itself. -/
theorem pairCondition_eq_claimPairCondition (o1 o2 : String) (hb : baseOf o1 ≠ "") :
    pairCondition o1 o2 = claimPairCondition o1 o2 := by
  unfold pairCondition claimPairCondition isBinaryPair
  rw [Bool.eq_iff_iff]
  simp only [Bool.and_eq_true, Bool.or_eq_true, bne_iff_ne, ne_eq, beq_iff_eq]
  constructor
  · rintro ⟨⟨hbase, hsuf⟩, hdisj⟩
    have hs : ¬suffixOf o1 = "" ∧ ¬suffixOf o2 = "" := by
      rcases hdisj with ((((⟨h1, h2⟩ | ⟨h1, h2⟩) | ⟨h1, h2⟩) | ⟨h1, h2⟩) | ⟨⟨_, h1⟩, h2⟩)
      · exact ⟨ne_empty_of_containsSub (by decide) h1, ne_empty_of_containsSub (by decide) h2⟩
      · exact ⟨ne_empty_of_containsSub (by decide) h1, ne_empty_of_containsSub (by decide) h2⟩
      · exact ⟨ne_empty_of_containsSub (by decide) h1, ne_empty_of_containsSub (by decide) h2⟩
      · exact ⟨ne_empty_of_containsSub (by decide) h1, ne_empty_of_containsSub (by decide) h2⟩
      · exact ⟨h1, h2⟩
    exact ⟨⟨⟨⟨hbase, hb⟩, hsuf⟩, hs.1⟩, hs.2⟩
  · rintro ⟨⟨⟨⟨hbase, _⟩, hsuf⟩, hs1⟩, hs2⟩
    exact ⟨⟨hbase, hsuf⟩, Or.inr ⟨⟨hb, hs1⟩, hs2⟩⟩

theorem find?_congr_pointwise {α : Type} (p q : α → Bool) (h : ∀ x, p x = q x) :
    ∀ l : List α, l.find? p = l.find? q := by
  intro l
  induction l with
  | nil => rfl
  | cons x xs ih => simp [List.find?_cons, h x, ih]

theorem nodup_dedupAux (l : List String) : ∀ seen : List String,
    (dedupAux seen l).Nodup ∧ ∀ x ∈ dedupAux seen l, seen.contains x = false := by
  induction l with
  | nil =>
    intro seen
    exact ⟨List.nodup_nil, fun x hx => absurd hx (List.not_mem_nil x)⟩
  | cons y ys ih =>
    intro seen
    cases hy : seen.contains y with
    | true =>
      have hgoal : dedupAux seen (y :: ys) = dedupAux seen ys := by
        rw [dedupAux, hy]
        rfl
      rw [hgoal]
      exact ih seen
    | false =>
      obtain ⟨hnd, hnotin⟩ := ih (y :: seen)
      have hgoal : dedupAux seen (y :: ys) = y :: dedupAux (y :: seen) ys := by
        rw [dedupAux, hy]
        rfl
      rw [hgoal]
      constructor
      · refine List.nodup_cons.mpr ⟨?_, hnd⟩
        intro hmem
        have := hnotin y hmem
        simp [List.contains_cons] at this
      · intro x hx
        rcases List.mem_cons.mp hx with rfl | hx
        · exact hy
        · have := hnotin x hx
          simp only [List.contains_cons, Bool.or_eq_false_iff] at this
          exact this.2

theorem nodup_dedupFirst (l : List String) : (dedupFirst l).Nodup :=
  (nodup_dedupAux l []).1

theorem oppositesMap_nil_of_not_two {l : List String} (h : l.length ≠ 2) :
    (match l with
      | [a, b] => [(a, b), (b, a)]
      | _ => ([] : List (String × String))) = [] := by
  match l with
  | [] => rfl
  | [_] => rfl
  | [x, y] => exact absurd rfl h
  | _ :: _ :: _ :: _ => rfl

/-! ### Claim C3 -/

/-- C3 (confirmed): the grouping step is a greedy single pass over the
distinct outcome labels in first-appearance order.  (i) `detectAndGroup-
BinaryMarkets` is that pass started with an empty processed set.  (ii) For
an unprocessed label `o1`, if the first later unprocessed label satisfying
the claim's pairing condition (equal non-empty base names, distinct
non-empty suffixes — regardless of what the suffixes are) is `o2`, the pass
merges `o1` with exactly that `o2` into one binary group whose base name is
`baseOf o1`, marking both processed.  (iii) A label for which the scan finds
no partner becomes its own non-binary group whose base name is the full
label, its fills sorted descending by timestamp. -/
theorem detectAndGroup_greedy_pairing :
    (∀ fb : FillsByToken,
      detectAndGroupBinaryMarkets fb = detectLoop fb [] (outcomesOf fb))
    ∧ (∀ (fb : FillsByToken) (processed : List String) (o1 : String)
        (rest : List String) (o2 : String),
        processed.contains o1 = false →
        rest.find? (fun x => !processed.contains x && claimPairCondition o1 x) = some o2 →
        detectLoop fb processed (o1 :: rest) =
          { fills := sortFillsDesc (fillsOfOutcome fb o1 ++ fillsOfOutcome fb o2)
            isBinary := true
            baseName := baseOf o1 } :: detectLoop fb (o2 :: o1 :: processed) rest)
    ∧ (∀ (fb : FillsByToken) (processed : List String) (o1 : String)
        (rest : List String),
        processed.contains o1 = false →
        (∀ x ∈ rest, processed.contains x = false → pairCondition o1 x = false) →
        detectLoop fb processed (o1 :: rest) =
          { fills := sortFillsDesc (fillsOfOutcome fb o1)
            isBinary := false
            baseName := o1 } :: detectLoop fb (o1 :: processed) rest) := by
  refine ⟨fun fb => rfl, ?_, ?_⟩
  · intro fb processed o1 rest o2 hp hfind
    have ho2 : claimPairCondition o1 o2 = true := by
      have hmem := List.find?_some hfind
      cases hc : claimPairCondition o1 o2 with
      | true => rfl
      | false => rw [hc, Bool.and_false] at hmem; cases hmem
    have hb : baseOf o1 ≠ "" := by
      have h' := ho2
      unfold claimPairCondition at h'
      simp only [Bool.and_eq_true, bne_iff_ne, ne_eq, beq_iff_eq] at h'
      exact h'.1.1.1.2
    have heq : ∀ x, (fun x => !processed.contains x && pairCondition o1 x) x
        = (fun x => !processed.contains x && claimPairCondition o1 x) x := by
      intro x
      simp only
      rw [pairCondition_eq_claimPairCondition o1 x hb]
    conv_lhs => rw [detectLoop]
    rw [hp, find?_congr_pointwise _ _ heq rest, hfind]
    rfl
  · intro fb processed o1 rest hp hall
    have hnone : rest.find? (fun x => !processed.contains x && pairCondition o1 x) = none := by
      apply List.find?_eq_none.mpr
      intro x hx
      cases hcx : processed.contains x with
      | true => simp [hcx]
      | false => simp [hcx, hall x hx hcx]
    conv_lhs => rw [detectLoop]
    rw [hp, hnone]
    rfl

def pfW1 : ProcessedFill := mkFill 10 "A - X" TradeSide.BUY 1 5

def pfW2 : ProcessedFill := mkFill 20 "A - Y" TradeSide.SELL 1 5

/-- Grouping input with the two pairable labels "A - X" and "A - Y". -/
def fbW : FillsByToken := [("A - X|t1", [pfW1]), ("A - Y|t2", [pfW2])]

/-- Witness for C3 at the concrete input `fbW`: "A - X" pairs with the first
qualifying later label "A - Y", and a lone label "Solo" becomes its own
non-binary group. -/
theorem detectAndGroup_greedy_pairing_witness :
    (detectLoop fbW [] ["A - X", "A - Y"] =
      { fills := sortFillsDesc (fillsOfOutcome fbW "A - X" ++ fillsOfOutcome fbW "A - Y")
        isBinary := true
        baseName := baseOf "A - X" } :: detectLoop fbW ["A - Y", "A - X"] ["A - Y"])
    ∧ (detectLoop fbW [] ["Solo"] =
      { fills := sortFillsDesc (fillsOfOutcome fbW "Solo")
        isBinary := false
        baseName := "Solo" } :: detectLoop fbW ["Solo"] []) :=
  ⟨detectAndGroup_greedy_pairing.2.1 fbW [] "A - X" ["A - Y"] "A - Y" (by decide) (by decide),
   detectAndGroup_greedy_pairing.2.2 fbW [] "Solo" [] (by decide)
     (fun x hx => absurd hx (List.not_mem_nil x))⟩

/-! ### Claim C4 -/

def pfOver : ProcessedFill := mkFill 100 "Q - Over" TradeSide.BUY 1 10

def pfUnder : ProcessedFill := mkFill 200 "Q - Under" TradeSide.SELL 1 10

/-- The C4 scenario input: label "Q - Over" with one BUY fill and label
"Q - Under" with one SELL fill. -/
def fbQ : FillsByToken := [("Q - Over|a", [pfOver]), ("Q - Under|b", [pfUnder])]

/-- The group the C4 scenario produces: one binary group, base name "Q",
fills sorted descending by timestamp. -/
def gQ : MarketGroup := { fills := [pfUnder, pfOver], isBinary := true, baseName := "Q" }

def pfPC : ProcessedFill := mkFill 2 "P - C" TradeSide.SELL 1 10

def pfPE : ProcessedFill := mkFill 1 "P - " TradeSide.BUY 1 10

/-- A binary group whose two distinct fill suffixes are "C" and "". -/
def gP : MarketGroup := { fills := [pfPC, pfPE], isBinary := true, baseName := "P" }

/-- A binary group with a single fill suffix. -/
def gSolo : MarketGroup := { fills := [pfOver], isBinary := true, baseName := "Q" }

/-- C4, amended (the claim as stated is false on two points; see
`attachNetActions_counterexample`): in a binary group whose fills carry
exactly two distinct outcome suffixes, a BUY fill's net action is its own
suffix, and a non-BUY fill's net action is the *other* suffix unless that
other suffix is the empty string, in which case it falls back to the fill's
own suffix; when the fills do not carry exactly two distinct suffixes every
fill's net action falls back to its own suffix.  In particular, for labels
"Q - Over" (one BUY fill) and "Q - Under" (one SELL fill), grouping yields
exactly the binary group `gQ` with base name "Q" and 2 fills, the BUY
fill's net action is "Over", and the SELL fill's net action is also "Over"
(the opposite of its own suffix "Under"). -/
theorem attachNetActions_net_action :
    (∀ (g : MarketGroup) (a b : String), g.isBinary = true →
      dedupFirst (g.fills.map fillSuffix) = [a, b] →
      attachNetActions g = g.fills.map (fun f =>
        { f with net_action := some (
            if f.side = TradeSide.BUY then fillSuffix f
            else if fillSuffix f = a then (if b = "" then a else b)
            else if fillSuffix f = b then (if a = "" then b else a)
            else fillSuffix f) }))
    ∧ (∀ g : MarketGroup, g.isBinary = true →
      (dedupFirst (g.fills.map fillSuffix)).length ≠ 2 →
      attachNetActions g = g.fills.map (fun f =>
        { f with net_action := some (fillSuffix f) }))
    ∧ (detectAndGroupBinaryMarkets fbQ = [gQ])
    ∧ ((attachNetActions gQ).map (fun f => (f.outcome, f.side, f.net_action))
        = [("Q - Under", TradeSide.SELL, some "Over"),
           ("Q - Over", TradeSide.BUY, some "Over")]) := by
  have hlook : ∀ (a b s : String), a ≠ b →
      (match List.lookup s [(a, b), (b, a)] with
        | some v => if v = "" then s else v
        | none => s)
      = (if s = a then (if b = "" then a else b)
         else if s = b then (if a = "" then b else a) else s) := by
    intro a b s hab
    by_cases hsa : s = a
    · subst hsa
      simp [List.lookup]
    · by_cases hsb : s = b
      · have h1 : (s == a) = false := beq_eq_false_iff_ne.mpr hsa
        have h2 : (s == b) = true := by rw [hsb]; simp
        simp only [List.lookup, h1, h2]
        rw [if_neg hsa, if_pos hsb, hsb]
      · have h1 : (s == a) = false := beq_eq_false_iff_ne.mpr hsa
        have h2 : (s == b) = false := beq_eq_false_iff_ne.mpr hsb
        simp [List.lookup, h1, h2, hsa, hsb]
  refine ⟨?_, ?_, by decide, by decide⟩
  · intro g a b hbin hded
    have hab : a ≠ b := by
      have h := nodup_dedupFirst (g.fills.map fillSuffix)
      rw [hded] at h
      rcases List.nodup_cons.mp h with ⟨hna, _⟩
      intro he
      exact hna (he ▸ List.mem_cons_self b [])
    have hmap : oppositesOf g.fills = [(a, b), (b, a)] := by
      unfold oppositesOf
      rw [hded]
    have hfun : ∀ f : ProcessedFill,
        calculateNetAction f.side f.outcome g.baseName [(a, b), (b, a)]
          = (if f.side = TradeSide.BUY then fillSuffix f
             else if fillSuffix f = a then (if b = "" then a else b)
             else if fillSuffix f = b then (if a = "" then b else a)
             else fillSuffix f) := by
      intro f
      cases hside : f.side with
      | BUY => simp [calculateNetAction, fillSuffix]
      | SELL =>
        simp only [calculateNetAction, fillSuffix]
        rw [hlook a b _ hab]
        simp
      | UNKNOWN =>
        simp only [calculateNetAction, fillSuffix]
        rw [hlook a b _ hab]
        simp
    unfold attachNetActions
    rw [hbin, if_pos rfl, hmap]
    exact List.map_congr_left (fun f _ => by rw [hfun f])
  · intro g hbin hlen
    have hmap : oppositesOf g.fills = [] := by
      unfold oppositesOf
      exact oppositesMap_nil_of_not_two hlen
    have hfun : ∀ f : ProcessedFill,
        calculateNetAction f.side f.outcome g.baseName [] = fillSuffix f := by
      intro f
      cases hside : f.side <;> simp [calculateNetAction, fillSuffix, List.lookup]
    unfold attachNetActions
    rw [hbin, if_pos rfl, hmap]
    exact List.map_congr_left (fun f _ => by rw [hfun f])

/-- Counterexample to C4 as stated: (i) in the claim's own scenario —
labels "Q - Over" (BUY fill) and "Q - Under" (SELL fill) — the SELL fill's
net action is "Over" (the opposite of its suffix "Under"), not the claimed
"Under"; (ii) in a binary group whose two distinct suffixes are "C" and "",
the SELL fill with suffix "C" keeps net action "C" (the empty opposite is
falsy and falls back), not the claimed other suffix "". -/
theorem attachNetActions_counterexample :
    (detectAndGroupBinaryMarkets fbQ = [gQ])
    ∧ ((attachNetActions gQ).map (fun f => (f.outcome, f.side, f.net_action))
        = [("Q - Under", TradeSide.SELL, some "Over"),
           ("Q - Over", TradeSide.BUY, some "Over")])
    ∧ ((some "Over" : Option String) ≠ some "Under")
    ∧ (dedupFirst (gP.fills.map fillSuffix) = ["C", ""])
    ∧ ((attachNetActions gP).map (fun f => (f.side, f.net_action))
        = [(TradeSide.SELL, some "C"), (TradeSide.BUY, some "")])
    ∧ ((some "C" : Option String) ≠ some "") := by
  decide

/-- Witness for C4's amended theorem: at `gQ` (two distinct suffixes "Under"
and "Over") and at `gSolo` (a single suffix, fallback case). -/
theorem attachNetActions_net_action_witness :
    (attachNetActions gQ = gQ.fills.map (fun f =>
      { f with net_action := some (
          if f.side = TradeSide.BUY then fillSuffix f
          else if fillSuffix f = "Under" then (if "Over" = "" then "Under" else "Over")
          else if fillSuffix f = "Over" then (if "Under" = "" then "Over" else "Under")
          else fillSuffix f) }))
    ∧ (attachNetActions gSolo = gSolo.fills.map (fun f =>
      { f with net_action := some (fillSuffix f) })) :=
  ⟨attachNetActions_net_action.1 gQ "Under" "Over" (by decide) (by decide),
   attachNetActions_net_action.2.1 gSolo (by decide) (by decide)⟩

end PolymarketData
